import Mathlib

/-!
Shallow embedding of the conversion core of `image_optimizer.pyw`
(the `Worker` thread and its helpers).  External effects — the
filesystem, the `cwebp` subprocess and the GUI cancellation flag —
are modelled by an explicit environment (`Env`); everything the
worker itself computes is translated directly from the source.
Wall-clock fields (`duration_seconds`) are not modelled.  The
cancellation flag is set once and never cleared within a run, so we
model the sequence of values observed by the interruption polls as a
threshold `cancelT : Option Nat`: the poll with 0-based index `c`
observes `true` exactly when `cancelT = some t` with `t ≤ c`.
-/

namespace ImageOptimizer

/-- A filesystem path, as its list of components. -/
abbrev FPath := List String

/-- `SUPPORTED_EXTENSIONS` (line 23 of the source). -/
def SUPPORTED_EXTENSIONS : List String := [".jpg", ".jpeg", ".png", ".webp"]

/-- `OUTPUT_DIR_NAME` (line 24). -/
def OUTPUT_DIR_NAME : String := "webp_optimized"

/-- `ENCODER_NAME` (line 25). -/
def ENCODER_NAME : String := "cwebp"

/-- Index of the last occurrence of a dot in a list of characters
(`name.rfind(".")` restricted to a hit). -/
def lastDotIdx : List Char → Option Nat
  | [] => none
  | c :: cs =>
    match lastDotIdx cs with
    | some i => some (i + 1)
    | none => if c = '.' then some (0 : Nat) else none

/-- `pathlib.PurePath.suffix` of a file name: the extension from the last
dot; empty when the name has no dot, starts with its only dot, or ends
with the dot. -/
def pathlib_suffix (name : String) : String :=
  let cs := name.toList
  match lastDotIdx cs with
  | some i => if 0 < i ∧ i < cs.length - 1 then String.mk (cs.drop i) else ""
  | none => ""

/-- `str.lower()`, character by character. -/
def toLowerStr (s : String) : String := String.mk (s.data.map Char.toLower)

/-- `str.strip()`: leading and trailing whitespace removed. -/
def stripStr (s : String) : String :=
  String.mk
    (((s.data.dropWhile Char.isWhitespace).reverse.dropWhile Char.isWhitespace).reverse)

/-- `path.suffix.lower()` applied to a file name. -/
def suffixLower (name : String) : String := toLowerStr (pathlib_suffix name)

/-- `pathlib.PurePath.stem` of a file name. -/
def pathlib_stem (name : String) : String :=
  let cs := name.toList
  match lastDotIdx cs with
  | some i => if 0 < i ∧ i < cs.length - 1 then String.mk (cs.take i) else name
  | none => name

/-- `path.name`: the last component of a path. -/
def pathName (p : FPath) : String := p.getLast?.getD ""

/-- `str(path)`. -/
def pathStr (p : FPath) : String := String.intercalate "/" p

/-- `FolderBatch` (lines 30-35). -/
structure FolderBatch where
  folder : FPath
  all_images : List FPath
  convertible_images : List FPath
  skipped_webp : List FPath
deriving DecidableEq

/-- `FolderSummary` (lines 38-49).  Byte counts are Python ints,
modelled as `Int`; the wall-clock `duration_seconds` field is not
modelled. -/
structure FolderSummary where
  folder : FPath
  converted : Nat
  skipped_existing : Nat
  errors : List String
  bytes_original : Int
  bytes_converted : Int
  archive_size : Option Int
  archive_path : Option FPath
deriving DecidableEq

/-- The `totals` sub-dictionary of the run summary (lines 450-458). -/
structure RunTotals where
  converted : Nat
  skipped_existing : Nat
  errors : Nat
  bytes_original : Int
  bytes_converted : Int
  bytes_saved : Int
  archives : Nat
deriving DecidableEq

/-- The dictionary built by `Worker._build_run_summary` (lines 420-460),
minus the wall-clock `duration_seconds` field. -/
structure RunSummary where
  cancelled : Bool
  total_images : Nat
  processed_images : Nat
  expected_conversions : Nat
  totals : RunTotals
  folders : List FolderSummary
deriving DecidableEq

/-- Result of the external `cwebp` subprocess for one image:
`FileNotFoundError`, another exception, or an exit with a return code
and decoded stderr text (lines 287-311). -/
inductive ProcResult where
  | notFound
  | unexpected (msg : String)
  | exited (returncode : Int) (stderrText : String)
deriving DecidableEq

/-- Environment of one `Worker._convert_image` call: the `stat` results
for source and target (`none` models `OSError` or a missing file, which
the code turns into size 0) and the subprocess result. -/
structure EncodeEnv where
  source_stat : Option Int
  result : ProcResult
  target_stat : Option Int
deriving DecidableEq

/-- Environment of one `Worker._replace_originals` call (lines 331-355):
whether each original still exists, whether unlinking it raises (with
the exception text), the listing of the temporary output directory, and
whether moving each produced file raises. -/
structure ReplaceEnv where
  orig_exists : FPath → Bool
  unlink_error : FPath → Option String
  outdir_files : List String
  move_error : String → Option String

/-- Environment of one `Worker._create_archive` call (lines 357-403). -/
structure ArchiveEnv where
  archive_exists : Bool
  unlink_error : Option String
  outdir_files : List String
  zip_error : Option String
  post_exists : Bool
  stat_error : Option String
  stat_size : Int
deriving DecidableEq

/-- The run configuration handed to `Worker.__init__` (lines 57-63). -/
structure Config where
  folders : List FPath
  quality : Nat
  use_cbz : Bool
  replace_originals : Bool
  skip_webp : Bool

/-- The full environment of one `Worker.run` invocation.  `cancelT` is
the threshold of the monotone cancellation flag: the `n`-th interruption
poll (0-based, counted over the whole run) observes `true` iff
`cancelT = some t` with `t ≤ n`. -/
structure Env where
  encoder_available : Bool
  folder_exists : FPath → Bool
  folder_entries : FPath → List (String × Bool)
  prep_error : FPath → Option String
  encode : FPath → EncodeEnv
  replace : FPath → ReplaceEnv
  archive : FPath → ArchiveEnv
  cancelT : Option Nat

/-- One interruption-flag poll (`self.isInterruptionRequested()`). -/
def polled (cancelT : Option Nat) (c : Nat) : Bool :=
  match cancelT with
  | none => false
  | some t => decide (t ≤ c)

/-- The scan of one existing folder inside `Worker._prepare_batches`
(lines 252-265): eligible files are the direct children that are files
with a supported extension; the partition is governed by the skip
flag. -/
def scan_folder (skip_webp : Bool) (entries : List (String × Bool)) (folder : FPath) :
    FolderBatch :=
  let all_images :=
    (entries.filter
      (fun e => e.2 && SUPPORTED_EXTENSIONS.contains (suffixLower e.1))).map
      (fun e => folder ++ [e.1])
  let skipped_webp :=
    if skip_webp then
      all_images.filter (fun p => suffixLower (pathName p) == ".webp")
    else []
  let convertible_images :=
    all_images.filter (fun p => !(skip_webp && suffixLower (pathName p) == ".webp"))
  ⟨folder, all_images, convertible_images, skipped_webp⟩

/-- `Worker._prepare_batches` (lines 241-269): non-existent folders are
skipped; returns the batches with the total convertible and total file
counts. -/
def prepare_batches (cfg : Config) (env : Env) :
    List FolderBatch × Nat × Nat :=
  let batches :=
    (cfg.folders.filter (fun f => env.folder_exists f)).map
      (fun f => scan_folder cfg.skip_webp (env.folder_entries f) f)
  (batches,
   (batches.map (fun b => b.convertible_images.length)).sum,
   (batches.map (fun b => b.all_images.length)).sum)

/-- `Worker._build_cwebp_command` (lines 322-329). -/
def build_cwebp_command (quality : Nat) (source target : FPath) : List String :=
  let cmd := [ENCODER_NAME, "-q", toString quality, pathStr source, "-o", pathStr target]
  if suffixLower (pathName source) == ".png" && quality == 100 then
    cmd.insertIdx 1 "-lossless"
  else cmd

/-- Outcome of `Worker._convert_image` (lines 278-320): the tuple
`(success, original_size, converted_size, error_message)`. -/
structure ConvResult where
  success : Bool
  original_size : Int
  converted_size : Int
  error_message : Option String
deriving DecidableEq

/-- `Worker._convert_image` (lines 278-320).  A missing or unstat-able
source counts as size 0; any failure yields `success = false`,
`converted_size = 0` and a message scoped to the file name. -/
def convert_image (cfg : Config) (env : Env) (source outdir : FPath) : ConvResult :=
  let target := outdir ++ [pathlib_stem (pathName source) ++ ".webp"]
  let _cmd := build_cwebp_command cfg.quality source target
  let e := env.encode source
  let original_size := e.source_stat.getD 0
  match e.result with
  | .notFound =>
      ⟨false, original_size, 0,
       some (pathName source ++ ": encoder '" ++ ENCODER_NAME ++ "' not found.")⟩
  | .unexpected exc =>
      ⟨false, original_size, 0,
       some (pathName source ++ ": unexpected error " ++ exc)⟩
  | .exited rc stderrText =>
      if rc ≠ 0 then
        let stderr := stripStr (if stderrText = "" then "Unknown error." else stderrText)
        ⟨false, original_size, 0, some (pathName source ++ ": " ++ stderr)⟩
      else
        ⟨true, original_size, e.target_stat.getD 0, none⟩

/-- `Worker._replace_originals` (lines 331-355): the list of error
strings it returns.  Deleting a missing original is not an error; the
files it deletes are exactly the still-existing convertible originals
(never anything else). -/
def replace_originals (batch : FolderBatch) (_outdir : FPath) (renv : ReplaceEnv) :
    List String :=
  let deleteErrors := batch.convertible_images.filterMap
    (fun original =>
      if renv.orig_exists original then
        (renv.unlink_error original).map
          (fun exc => "Error deleting " ++ pathName original ++ ": " ++ exc)
      else none)
  let moveErrors := renv.outdir_files.filterMap
    (fun optimized =>
      (renv.move_error optimized).map
        (fun exc => "Error moving " ++ optimized ++ ": " ++ exc))
  deleteErrors ++ moveErrors

/-- Result of `Worker._create_archive` — the returned triple plus, for
the frame-effect claims, the list of paths the call removes from disk
(the pre-existing archive it unlinks and the temporary output directory
tree removed by `_cleanup_dir`).  Writing the archive only reads the
produced outputs and the skipped originals. -/
structure ArchiveResult where
  archive_path : Option FPath
  archive_size : Option Int
  errors : List String
  deleted : List FPath
deriving DecidableEq

/-- `Worker._create_archive` (lines 357-403). -/
def create_archive (use_cbz : Bool) (_skip_webp : Bool) (batch : FolderBatch)
    (outdir : FPath) (aenv : ArchiveEnv) : ArchiveResult :=
  let archive_ext := if use_cbz then ".cbz" else ".zip"
  let archive_name := pathName batch.folder ++ archive_ext
  let archive_path := batch.folder.dropLast ++ [archive_name]
  let cleanup := outdir :: aenv.outdir_files.map (fun n => outdir ++ [n])
  let write := fun (removed : List FPath) =>
    match aenv.zip_error with
    | some exc =>
        ⟨none, none,
         ["Error creating archive for '" ++ pathName batch.folder ++ "': " ++ exc],
         removed ++ cleanup⟩
    | none =>
        let sizeErr : Option Int × List String :=
          if aenv.post_exists then
            match aenv.stat_error with
            | some exc =>
                (none,
                 ["Unable to read archive size for '" ++ archive_name ++ "': " ++ exc])
            | none => (some aenv.stat_size, [])
          else (none, [])
        ⟨if aenv.post_exists then some archive_path else none,
         sizeErr.1, sizeErr.2, removed ++ cleanup⟩
  if aenv.archive_exists then
    match aenv.unlink_error with
    | some exc =>
        ⟨none, none,
         ["Unable to remove existing archive " ++ archive_name ++ ": " ++ exc],
         cleanup⟩
    | none => write [archive_path]
  else write []

/-- `Worker._emit_progress` (lines 413-418) over the integers: no-op
when `total ≤ 0`, otherwise the emitted percentage.  Python evaluates
`int(processed / total * 100)` in floating point; we use the exact
value `processed * 100 / total`, which for the non-negative counters
the worker passes satisfies the same sign, bound and monotonicity
properties (float rounding and the truncation of `int` can differ from
the exact quotient by at most a unit in either model, and both
pipelines are monotone and capped by the outer `min`). -/
def emit_progress (processed total : Int) : Option Int :=
  if total ≤ 0 then none
  else some (min 100 (processed * 100 / total))

/-- The progress values (0 or 1 of them) appended by one
`Worker._emit_progress` call inside `run`, where both counters are
natural numbers. -/
def progress_update (processed total : Nat) : List Nat :=
  if total ≤ 0 then [] else [min 100 (processed * 100 / total)]

/-- The per-folder saved-bytes value the results dialog derives from a
folder summary (lines 1030-1034 of the source). -/
def dialog_saved_value (f : FolderSummary) : Int :=
  max 0 (f.bytes_original - f.bytes_converted)

/-- `Worker._build_run_summary` (lines 420-460), minus the wall-clock
duration. -/
def build_run_summary (folder_summaries : List FolderSummary)
    (total_work_units processed_units expected_conversions : Nat)
    (cancelled : Bool) : RunSummary :=
  let total_bytes_original := (folder_summaries.map (fun s => s.bytes_original)).sum
  let total_bytes_converted := (folder_summaries.map (fun s => s.bytes_converted)).sum
  { cancelled := cancelled,
    total_images := total_work_units,
    processed_images := processed_units,
    expected_conversions := expected_conversions,
    totals :=
      { converted := (folder_summaries.map (fun s => s.converted)).sum,
        skipped_existing := (folder_summaries.map (fun s => s.skipped_existing)).sum,
        errors := (folder_summaries.map (fun s => s.errors.length)).sum,
        bytes_original := total_bytes_original,
        bytes_converted := total_bytes_converted,
        bytes_saved := max 0 (total_bytes_original - total_bytes_converted),
        archives := (folder_summaries.filter (fun s => s.archive_path.isSome)).length },
    folders := folder_summaries }

/-- The mutable state threaded through the folder loop of `Worker.run`:
the number of interruption polls performed so far, `processed_units`,
the accumulated `folder_summaries`, the progress values emitted so far,
and (instrumentation for the frame-effect claims) the folders for which
`_create_archive` has been invoked. -/
structure LoopState where
  c : Nat
  processed_units : Nat
  summaries : List FolderSummary
  emits : List Nat
  archive_calls : List FPath
deriving DecidableEq

/-- Per-image folder accumulators of `Worker.run` (lines 114-119):
`folder_errors`, `converted_count`, `bytes_original`,
`bytes_converted`. -/
structure FolderAcc where
  errors : List String
  converted : Nat
  bytes_original : Int
  bytes_converted : Int
deriving DecidableEq

/-- The per-image update of the folder accumulators (lines 185-190). -/
def stepAcc (r : ConvResult) (acc : FolderAcc) : FolderAcc :=
  if r.success then
    { acc with
      converted := acc.converted + 1,
      bytes_original := acc.bytes_original + r.original_size,
      bytes_converted := acc.bytes_converted + r.converted_size }
  else
    match r.error_message with
    | some m => { acc with errors := acc.errors ++ [m] }
    | none => acc

/-- The pure effect of the image loop on the folder accumulators when no
cancellation occurs. -/
def foldImages (cfg : Config) (env : Env) (outdir : FPath) :
    List FPath → FolderAcc → FolderAcc
  | [], acc => acc
  | src :: rest, acc =>
      foldImages cfg env outdir rest (stepAcc (convert_image cfg env src outdir) acc)

/-- The image loop of `Worker.run` (lines 161-190): polls the
cancellation flag before each image, converts, counts the unit, emits
progress, and accumulates.  `Sum.inl` is the cancelled exit (the folder
summary is discarded), `Sum.inr` the normal exit. -/
def imageLoop (cfg : Config) (env : Env) (twu : Nat) (outdir : FPath) :
    List FPath → LoopState → FolderAcc → LoopState ⊕ (LoopState × FolderAcc)
  | [], st, acc => Sum.inr (st, acc)
  | src :: rest, st, acc =>
      if polled env.cancelT st.c then Sum.inl st
      else
        let st1 : LoopState := { st with c := st.c + 1 }
        let r := convert_image cfg env src outdir
        let pu := st1.processed_units + 1
        let st2 : LoopState :=
          { st1 with processed_units := pu, emits := st1.emits ++ progress_update pu twu }
        imageLoop cfg env twu outdir rest st2 (stepAcc r acc)

/-- Result of the output strategy chosen at lines 192-198: archive path,
archive size, error strings, and (instrumentation) the folders for which
`_create_archive` was invoked. -/
structure StratResult where
  archive_path : Option FPath
  archive_size : Option Int
  errors : List String
  calls : List FPath
deriving DecidableEq

/-- The output-strategy step of `Worker.run` (lines 192-198): exactly
one of `_replace_originals` and `_create_archive` runs, replace taking
precedence. -/
def strategyOf (cfg : Config) (env : Env) (b : FolderBatch) (outdir : FPath) :
    StratResult :=
  if cfg.replace_originals then
    ⟨none, none, replace_originals b outdir (env.replace b.folder), []⟩
  else
    let ar := create_archive cfg.use_cbz cfg.skip_webp b outdir (env.archive b.folder)
    ⟨ar.archive_path, ar.archive_size, ar.errors, [b.folder]⟩

/-- Sealing a `FolderSummary` (lines 206-216 and the two early-branch
variants). -/
def sealSummary (b : FolderBatch) (acc : FolderAcc) (asize : Option Int)
    (apath : Option FPath) : FolderSummary :=
  { folder := b.folder, converted := acc.converted,
    skipped_existing := b.skipped_webp.length, errors := acc.errors,
    bytes_original := acc.bytes_original, bytes_converted := acc.bytes_converted,
    archive_size := asize, archive_path := apath }

/-- The outcome of processing one folder batch: either a cancellation
observed inside the image loop, or normal completion. -/
inductive FolderStep where
  | cancelled (st : LoopState)
  | done (st : LoopState)
deriving DecidableEq

/-- The loop state carried by either outcome. -/
def FolderStep.state : FolderStep → LoopState
  | .cancelled st => st
  | .done st => st

/-- The body of the per-folder loop of `Worker.run` (lines 113-217),
entered after the batch-top interruption poll: prepare the output
directory (a failure seals an error-only summary), take the
nothing-to-convert shortcut when replace-mode is off, otherwise run the
image loop, apply the output strategy, count the skip-excluded files,
and seal the folder summary. -/
def processFolder (cfg : Config) (env : Env) (twu : Nat) (b : FolderBatch)
    (st : LoopState) : FolderStep :=
  match env.prep_error b.folder with
  | some exc =>
      let msg := "Unable to prepare output directory for " ++ pathName b.folder
        ++ ": " ++ exc
      .done { st with summaries := st.summaries ++ [sealSummary b ⟨[msg], 0, 0, 0⟩ none none] }
  | none =>
      let outdir := b.folder ++ [OUTPUT_DIR_NAME]
      if b.convertible_images.isEmpty && !cfg.replace_originals then
        let msg := "No images to convert in " ++ pathName b.folder ++ ", skipping."
        .done { st with summaries := st.summaries ++ [sealSummary b ⟨[msg], 0, 0, 0⟩ none none] }
      else
        match imageLoop cfg env twu outdir b.convertible_images st ⟨[], 0, 0, 0⟩ with
        | .inl st1 => .cancelled st1
        | .inr (st1, acc) =>
            let strat := strategyOf cfg env b outdir
            let acc2 : FolderAcc := { acc with errors := acc.errors ++ strat.errors }
            let skipped_units := b.all_images.length - b.convertible_images.length
            let st2 : LoopState :=
              if 0 < skipped_units then
                { st1 with
                  processed_units := st1.processed_units + skipped_units,
                  emits := st1.emits ++
                    progress_update (st1.processed_units + skipped_units) twu }
              else st1
            .done { st2 with
              summaries := st2.summaries ++
                [sealSummary b acc2 strat.archive_size strat.archive_path],
              archive_calls := st2.archive_calls ++ strat.calls }

/-- What one `Worker.run` invocation communicates outward: the ordered
progress percentages, the single `RunSummary` it emits (every return
path of `run` emits exactly one), and (instrumentation) the folders for
which `_create_archive` was invoked. -/
structure RunOutput where
  progressEmits : List Nat
  summary : RunSummary
  archive_calls : List FPath
deriving DecidableEq

/-- The folder loop of `Worker.run` (lines 97-230): poll the flag at the
top of each batch, process the folder, and on normal completion of all
batches emit 100% and the final summary. -/
def runBatches (cfg : Config) (env : Env) (twu tc : Nat) :
    List FolderBatch → LoopState → RunOutput
  | [], st =>
      { progressEmits := st.emits ++ [100],
        summary := build_run_summary st.summaries twu st.processed_units tc false,
        archive_calls := st.archive_calls }
  | b :: rest, st =>
      if polled env.cancelT st.c then
        { progressEmits := st.emits,
          summary := build_run_summary st.summaries twu st.processed_units tc true,
          archive_calls := st.archive_calls }
      else
        match processFolder cfg env twu b { st with c := st.c + 1 } with
        | .cancelled st1 =>
            { progressEmits := st1.emits,
              summary := build_run_summary st1.summaries twu st1.processed_units tc true,
              archive_calls := st1.archive_calls }
        | .done st1 => runBatches cfg env twu tc rest st1

/-- `total_work_units` as computed at line 81. -/
def total_work_units_of (total_convertible total_files : Nat) : Nat :=
  if 0 < total_files then total_files else total_convertible

/-- `Worker.run` (lines 67-230). -/
def run (cfg : Config) (env : Env) : RunOutput :=
  if !env.encoder_available then
    { progressEmits := [], summary := build_run_summary [] 0 0 0 false,
      archive_calls := [] }
  else
    let scan := prepare_batches cfg env
    let twu := total_work_units_of scan.2.1 scan.2.2
    if scan.2.1 = 0 then
      { progressEmits := [], summary := build_run_summary [] twu 0 scan.2.1 false,
        archive_calls := [] }
    else
      runBatches cfg env twu scan.2.1 scan.1 ⟨0, 0, [], [], []⟩

/-- The folder summary an uncancelled pass over one batch seals
(the pure content of `processFolder`). -/
def folderSummaryOf (cfg : Config) (env : Env) (b : FolderBatch) : FolderSummary :=
  match env.prep_error b.folder with
  | some exc =>
      sealSummary b
        ⟨["Unable to prepare output directory for " ++ pathName b.folder ++ ": " ++ exc],
         0, 0, 0⟩ none none
  | none =>
      if b.convertible_images.isEmpty && !cfg.replace_originals then
        sealSummary b
          ⟨["No images to convert in " ++ pathName b.folder ++ ", skipping."], 0, 0, 0⟩
          none none
      else
        let outdir := b.folder ++ [OUTPUT_DIR_NAME]
        let acc := foldImages cfg env outdir b.convertible_images ⟨[], 0, 0, 0⟩
        let strat := strategyOf cfg env b outdir
        sealSummary b { acc with errors := acc.errors ++ strat.errors }
          strat.archive_size strat.archive_path

/-- The `_create_archive` invocations an uncancelled pass over one batch
performs. -/
def archCallsOf (cfg : Config) (env : Env) (b : FolderBatch) : List FPath :=
  match env.prep_error b.folder with
  | some _ => []
  | none =>
      if b.convertible_images.isEmpty && !cfg.replace_originals then []
      else (strategyOf cfg env b (b.folder ++ [OUTPUT_DIR_NAME])).calls

/-- Number of interruption polls the image loop of one batch performs
when no cancellation occurs. -/
def innerPolls (cfg : Config) (env : Env) (b : FolderBatch) : Nat :=
  match env.prep_error b.folder with
  | some _ => 0
  | none =>
      if b.convertible_images.isEmpty && !cfg.replace_originals then 0
      else b.convertible_images.length

/-- Total interruption polls one uncancelled batch consumes (the
batch-top poll plus the image-loop polls). -/
def folderPolls (cfg : Config) (env : Env) (b : FolderBatch) : Nat :=
  1 + innerPolls cfg env b

/-- Total interruption polls a run consumes over a list of uncancelled
batches. -/
def pollsUpto (cfg : Config) (env : Env) (bs : List FolderBatch) : Nat :=
  (bs.map (folderPolls cfg env)).sum

/-- The loop state carried by either result of the image loop. -/
def imageState : LoopState ⊕ (LoopState × FolderAcc) → LoopState :=
  Sum.elim id Prod.fst

/-- Upper bound of every progress value emitted while `processed_units`
is `pu`: the percentage function is monotone in `pu`, so this bounds all
earlier emissions too. -/
def cap (pu twu : Nat) : Nat := min 100 (pu * 100 / twu)

/-- The invariant maintained over the emitted progress values: they form
a non-decreasing chain and each is at most the current percentage
bound. -/
def emitsOk (twu pu : Nat) (l : List Nat) : Prop :=
  l.Chain' (· ≤ ·) ∧ ∀ x ∈ l, x ≤ cap pu twu

/-- A replace environment where nothing fails. -/
def okReplaceEnv : ReplaceEnv := ⟨fun _ => true, fun _ => none, [], fun _ => none⟩

/-- An archive environment where nothing fails: no pre-existing archive,
the zip write succeeds, and the produced archive stats at 3 bytes. -/
def okArchiveEnv : ArchiveEnv := ⟨false, none, [], none, true, none, 3⟩

/-- A benign environment: encoder present, every folder exists and is
empty, no failures anywhere, no cancellation. -/
def baseEnv : Env :=
  { encoder_available := true,
    folder_exists := fun _ => true,
    folder_entries := fun _ => [],
    prep_error := fun _ => none,
    encode := fun _ => ⟨some 10, .exited 0 "", some 4⟩,
    replace := fun _ => okReplaceEnv,
    archive := fun _ => okArchiveEnv,
    cancelT := none }

/-- Two folders, archive mode, skip-webp on. -/
def twoFolderCfg : Config := ⟨[["f1"], ["f2"]], 75, false, false, true⟩

/-- Environment for `twoFolderCfg`: folder `f1` holds one convertible
image and one skipped webp, folder `f2` is empty. -/
def twoFolderEnv : Env :=
  { baseEnv with
    folder_entries := fun f =>
      if f = ["f1"] then [("a.jpg", true), ("b.webp", true)] else [] }

/-- Environment whose encoder is not discoverable. -/
def noEncoderEnv : Env := { baseEnv with encoder_available := false }

/-- Two folders with one convertible image each. -/
def cancelCfg : Config := ⟨[["g1"], ["g2"]], 75, false, false, true⟩

/-- Environment for `cancelCfg` in which the cancellation flag is first
observed by the interruption poll at the top of the second folder
(poll index 2 = the polls of the fully processed first folder). -/
def cancelEnv : Env :=
  { baseEnv with
    folder_entries := fun _ => [("a.jpg", true)],
    cancelT := some 2 }

/-- Single-folder configuration with replace-originals enabled. -/
def replaceCfg : Config := ⟨[["f1"]], 75, false, true, true⟩

/-- A concrete well-formed batch for the archive frame-effect claim. -/
def archiveBatch : FolderBatch :=
  ⟨["f"], [["f", "a.jpg"]], [["f", "a.jpg"]], []⟩

/-- Single empty folder: zero files, zero convertible images. -/
def emptyCfg : Config := ⟨[["e1"]], 75, false, false, true⟩

/-- The batch the scan produces for folder `f1` of `twoFolderEnv`. -/
def f1Batch : FolderBatch :=
  ⟨["f1"], [["f1", "a.jpg"], ["f1", "b.webp"]], [["f1", "a.jpg"]], [["f1", "b.webp"]]⟩

/-- The batch the scan produces for folder `f2` of `twoFolderEnv`. -/
def f2Batch : FolderBatch := ⟨["f2"], [], [], []⟩

/-! ## Progress-emission invariant -/

theorem mem_of_getLast?_mem {α : Type} {l : List α} {x : α}
    (h : x ∈ l.getLast?) : x ∈ l := by
  obtain ⟨hne, rfl⟩ := List.mem_getLast?_eq_getLast h
  exact List.getLast_mem hne

theorem cap_le_100 (pu twu : Nat) : cap pu twu ≤ 100 := min_le_left _ _

theorem cap_mono {pu pu' : Nat} (twu : Nat) (h : pu ≤ pu') :
    cap pu twu ≤ cap pu' twu :=
  min_le_min le_rfl (Nat.div_le_div_right (Nat.mul_le_mul_right _ h))

theorem progress_update_eq (pu twu : Nat) :
    progress_update pu twu = if twu ≤ 0 then [] else [cap pu twu] := rfl

theorem emitsOk_mono {twu pu pu' : Nat} {l : List Nat} (h : pu ≤ pu')
    (hl : emitsOk twu pu l) : emitsOk twu pu' l :=
  ⟨hl.1, fun x hx => le_trans (hl.2 x hx) (cap_mono twu h)⟩

theorem emitsOk_append {twu pu pu' : Nat} {l : List Nat} (h : pu ≤ pu')
    (hl : emitsOk twu pu l) : emitsOk twu pu' (l ++ progress_update pu' twu) := by
  rw [progress_update_eq]
  by_cases htwu : twu ≤ 0
  · simpa [htwu] using emitsOk_mono h hl
  · simp only [htwu, if_false]
    constructor
    · refine hl.1.append (List.chain'_singleton _) ?_
      intro x hx y hy
      simp only [List.head?_cons, Option.mem_def, Option.some.injEq] at hy
      subst hy
      exact le_trans (hl.2 x (mem_of_getLast?_mem hx)) (cap_mono twu h)
    · intro x hx
      rcases List.mem_append.1 hx with hx | hx
      · exact le_trans (hl.2 x hx) (cap_mono twu h)
      · simp only [List.mem_singleton] at hx
        subst hx
        exact le_rfl

theorem emitsOk_final {twu pu : Nat} {l : List Nat} (hl : emitsOk twu pu l) :
    (l ++ [100]).Chain' (· ≤ ·) ∧ ∀ x ∈ l ++ [100], x ≤ 100 := by
  constructor
  · refine hl.1.append (List.chain'_singleton _) ?_
    intro x hx y hy
    simp only [List.head?_cons, Option.mem_def, Option.some.injEq] at hy
    subst hy
    exact le_trans (hl.2 x (mem_of_getLast?_mem hx)) (cap_le_100 _ _)
  · intro x hx
    rcases List.mem_append.1 hx with hx | hx
    · exact le_trans (hl.2 x hx) (cap_le_100 _ _)
    · simp only [List.mem_singleton] at hx
      subst hx
      exact le_rfl

/-! ## Image-loop lemmas -/

@[simp] theorem FolderStep_state_done (st : LoopState) :
    (FolderStep.done st).state = st := rfl

@[simp] theorem FolderStep_state_cancelled (st : LoopState) :
    (FolderStep.cancelled st).state = st := rfl

@[simp] theorem imageState_inl (st : LoopState) :
    imageState (Sum.inl st) = st := rfl

@[simp] theorem imageState_inr (p : LoopState × FolderAcc) :
    imageState (Sum.inr p) = p.1 := rfl

theorem imageLoop_frame (cfg : Config) (env : Env) (twu : Nat) (outdir : FPath) :
    ∀ (srcs : List FPath) (st : LoopState) (acc : FolderAcc),
      (imageState (imageLoop cfg env twu outdir srcs st acc)).summaries = st.summaries ∧
      (imageState (imageLoop cfg env twu outdir srcs st acc)).archive_calls =
        st.archive_calls := by
  intro srcs
  induction srcs with
  | nil => intro st acc; simp [imageLoop, imageState]
  | cons src rest ih =>
      intro st acc
      by_cases hp : polled env.cancelT st.c
      · simp [imageLoop, hp, imageState]
      · simpa [imageLoop, hp] using ih _ _

theorem imageLoop_emitsOk (cfg : Config) (env : Env) (twu : Nat) (outdir : FPath) :
    ∀ (srcs : List FPath) (st : LoopState) (acc : FolderAcc),
      emitsOk twu st.processed_units st.emits →
      emitsOk twu (imageState (imageLoop cfg env twu outdir srcs st acc)).processed_units
        (imageState (imageLoop cfg env twu outdir srcs st acc)).emits := by
  intro srcs
  induction srcs with
  | nil => intro st acc h; simpa [imageLoop, imageState] using h
  | cons src rest ih =>
      intro st acc h
      by_cases hp : polled env.cancelT st.c
      · simpa [imageLoop, hp, imageState] using h
      · simp only [imageLoop, hp, Bool.false_eq_true, if_false]
        exact ih _ _ (emitsOk_append (Nat.le_succ _) h)

theorem imageLoop_noCancel (cfg : Config) (env : Env) (twu : Nat) (outdir : FPath) :
    ∀ (srcs : List FPath) (st : LoopState) (acc : FolderAcc),
      (∀ j, j < srcs.length → polled env.cancelT (st.c + j) = false) →
      ∃ pu em, imageLoop cfg env twu outdir srcs st acc =
        Sum.inr (⟨st.c + srcs.length, pu, st.summaries, em, st.archive_calls⟩,
                 foldImages cfg env outdir srcs acc) := by
  intro srcs
  induction srcs with
  | nil =>
      intro st acc _
      exact ⟨st.processed_units, st.emits, by simp [imageLoop, foldImages]⟩
  | cons src rest ih =>
      intro st acc h
      have h0 : polled env.cancelT st.c = false := by
        simpa using h 0 (Nat.succ_pos _)
      obtain ⟨pu, em, heq⟩ := ih
        { st with
          c := st.c + 1,
          processed_units := st.processed_units + 1,
          emits := st.emits ++ progress_update (st.processed_units + 1) twu }
        (stepAcc (convert_image cfg env src outdir) acc)
        (by
          intro j hj
          have hx := h (j + 1) (Nat.succ_lt_succ hj)
          have e : st.c + (j + 1) = st.c + 1 + j := by omega
          rwa [e] at hx)
      refine ⟨pu, em, ?_⟩
      have hc : st.c + 1 + rest.length = st.c + (rest.length + 1) := by omega
      simp only [imageLoop, h0, Bool.false_eq_true, if_false]
      rw [heq, foldImages]
      simp [hc]

/-! ## Folder-level lemmas -/

theorem processFolder_replace (cfg : Config) (env : Env) (twu : Nat) (b : FolderBatch)
    (st : LoopState) (hrep : cfg.replace_originals = true)
    (hst : ∀ f ∈ st.summaries, f.archive_path = none ∧ f.archive_size = none) :
    (∀ f ∈ (processFolder cfg env twu b st).state.summaries,
        f.archive_path = none ∧ f.archive_size = none) ∧
    (processFolder cfg env twu b st).state.archive_calls = st.archive_calls := by
  unfold processFolder
  cases hp : env.prep_error b.folder with
  | some exc =>
      refine ⟨?_, rfl⟩
      intro f hf
      simp only [FolderStep_state_done, List.mem_append, List.mem_singleton] at hf
      rcases hf with hf | hf
      · exact hst f hf
      · subst hf; exact ⟨rfl, rfl⟩
  | none =>
      by_cases hskip : (b.convertible_images.isEmpty && !cfg.replace_originals) = true
      · rw [if_pos hskip]
        refine ⟨?_, rfl⟩
        intro f hf
        simp only [FolderStep_state_done, List.mem_append, List.mem_singleton] at hf
        rcases hf with hf | hf
        · exact hst f hf
        · subst hf; exact ⟨rfl, rfl⟩
      · rw [if_neg hskip]
        cases him : imageLoop cfg env twu (b.folder ++ [OUTPUT_DIR_NAME])
            b.convertible_images st ⟨[], 0, 0, 0⟩ with
        | inl st1 =>
            have hfr := imageLoop_frame cfg env twu (b.folder ++ [OUTPUT_DIR_NAME])
              b.convertible_images st ⟨[], 0, 0, 0⟩
            rw [him] at hfr
            simp only [imageState_inl] at hfr
            refine ⟨?_, by simp [hfr.2]⟩
            intro f hf
            simp only [FolderStep_state_cancelled, hfr.1] at hf
            exact hst f hf
        | inr p =>
            have hfr := imageLoop_frame cfg env twu (b.folder ++ [OUTPUT_DIR_NAME])
              b.convertible_images st ⟨[], 0, 0, 0⟩
            rw [him] at hfr
            simp only [imageState_inr] at hfr
            have hstrat : strategyOf cfg env b (b.folder ++ [OUTPUT_DIR_NAME]) =
                ⟨none, none,
                 replace_originals b (b.folder ++ [OUTPUT_DIR_NAME])
                   (env.replace b.folder), []⟩ := by
              simp [strategyOf, hrep]
            by_cases hsk : 0 < b.all_images.length - b.convertible_images.length
            all_goals
              simp only [hsk, if_true, if_false, FolderStep_state_done, hstrat]
              refine ⟨?_, by simp [hfr.2]⟩
              intro f hf
              simp [hfr.1, List.mem_append] at hf
              rcases hf with hf | hf
              · exact hst f hf
              · subst hf; exact ⟨rfl, rfl⟩

theorem processFolder_emitsOk (cfg : Config) (env : Env) (twu : Nat) (b : FolderBatch)
    (st : LoopState) (h : emitsOk twu st.processed_units st.emits) :
    emitsOk twu (processFolder cfg env twu b st).state.processed_units
      (processFolder cfg env twu b st).state.emits := by
  unfold processFolder
  cases hp : env.prep_error b.folder with
  | some exc => simpa [FolderStep.state] using h
  | none =>
      by_cases hskip : (b.convertible_images.isEmpty && !cfg.replace_originals) = true
      · simpa [hskip, FolderStep.state] using h
      · simp only [hskip, if_false]
        have hloop := imageLoop_emitsOk cfg env twu (b.folder ++ [OUTPUT_DIR_NAME])
          b.convertible_images st ⟨[], 0, 0, 0⟩ h
        cases him : imageLoop cfg env twu (b.folder ++ [OUTPUT_DIR_NAME])
            b.convertible_images st ⟨[], 0, 0, 0⟩ with
        | inl st1 =>
            rw [him] at hloop
            simpa [FolderStep.state, imageState] using hloop
        | inr p =>
            rw [him] at hloop
            simp only [imageState, Sum.elim_inr] at hloop
            by_cases hsk : 0 < b.all_images.length - b.convertible_images.length
            · simp only [hsk, if_true, FolderStep.state]
              exact emitsOk_append (Nat.le_add_right _ _) hloop
            · simpa [hsk, FolderStep.state] using hloop

theorem processFolder_noCancel (cfg : Config) (env : Env) (twu : Nat) (b : FolderBatch)
    (st : LoopState)
    (h : ∀ j, j < innerPolls cfg env b → polled env.cancelT (st.c + j) = false) :
    ∃ pu em, processFolder cfg env twu b st =
      .done ⟨st.c + innerPolls cfg env b, pu,
             st.summaries ++ [folderSummaryOf cfg env b], em,
             st.archive_calls ++ archCallsOf cfg env b⟩ := by
  cases hp : env.prep_error b.folder with
  | some exc =>
      refine ⟨st.processed_units, st.emits, ?_⟩
      simp [processFolder, innerPolls, folderSummaryOf, archCallsOf, hp]
  | none =>
      by_cases hskip : (b.convertible_images.isEmpty && !cfg.replace_originals) = true
      · refine ⟨st.processed_units, st.emits, ?_⟩
        simp [processFolder, innerPolls, folderSummaryOf, archCallsOf, hp, hskip]
      · have hin : innerPolls cfg env b = b.convertible_images.length := by
          simp [innerPolls, hp, hskip]
        rw [hin] at h
        obtain ⟨pu, em, heq⟩ := imageLoop_noCancel cfg env twu
          (b.folder ++ [OUTPUT_DIR_NAME]) b.convertible_images st ⟨[], 0, 0, 0⟩ h
        by_cases hsk : 0 < b.all_images.length - b.convertible_images.length
        · refine ⟨pu + (b.all_images.length - b.convertible_images.length),
            em ++ progress_update (pu + (b.all_images.length - b.convertible_images.length))
              twu, ?_⟩
          simp only [processFolder, hp]
          rw [if_neg hskip, heq]
          simp [folderSummaryOf, archCallsOf, hp, hskip, hin, hsk]
        · refine ⟨pu, em, ?_⟩
          simp only [processFolder, hp]
          rw [if_neg hskip, heq]
          simp [folderSummaryOf, archCallsOf, hp, hskip, hin, hsk]

/-! ## Run-loop lemmas -/

theorem runBatches_emits (cfg : Config) (env : Env) (twu tc : Nat) :
    ∀ (bs : List FolderBatch) (st : LoopState),
      emitsOk twu st.processed_units st.emits →
      (runBatches cfg env twu tc bs st).progressEmits.Chain' (· ≤ ·) ∧
      ∀ x ∈ (runBatches cfg env twu tc bs st).progressEmits, x ≤ 100 := by
  intro bs
  induction bs with
  | nil =>
      intro st h
      simpa [runBatches] using emitsOk_final h
  | cons b rest ih =>
      intro st h
      by_cases hp : polled env.cancelT st.c
      · rw [runBatches, if_pos hp]
        exact ⟨h.1, fun x hx => le_trans (h.2 x hx) (cap_le_100 _ _)⟩
      · rw [runBatches, if_neg hp]
        have hpf := processFolder_emitsOk cfg env twu b { st with c := st.c + 1 } h
        cases hpf2 : processFolder cfg env twu b { st with c := st.c + 1 } with
        | cancelled st1 =>
            rw [hpf2] at hpf
            simp only [FolderStep_state_cancelled] at hpf
            exact ⟨hpf.1, fun x hx => le_trans (hpf.2 x hx) (cap_le_100 _ _)⟩
        | done st1 =>
            rw [hpf2] at hpf
            simp only [FolderStep_state_done] at hpf
            exact ih st1 hpf

theorem runBatches_noCancel (cfg : Config) (env : Env) (twu tc : Nat)
    (hc : env.cancelT = none) :
    ∀ (bs : List FolderBatch) (st : LoopState),
      ∃ pu em, runBatches cfg env twu tc bs st =
        { progressEmits := em,
          summary := build_run_summary
            (st.summaries ++ bs.map (folderSummaryOf cfg env)) twu pu tc false,
          archive_calls := st.archive_calls ++ (bs.map (archCallsOf cfg env)).flatten } := by
  intro bs
  induction bs with
  | nil =>
      intro st
      exact ⟨st.processed_units, st.emits ++ [100], by simp [runBatches]⟩
  | cons b rest ih =>
      intro st
      have hp : polled env.cancelT st.c = false := by simp [polled, hc]
      rw [runBatches, if_neg (by simp [hp])]
      obtain ⟨pu1, em1, heq⟩ := processFolder_noCancel cfg env twu b
        { st with c := st.c + 1 } (by intro j hj; simp [polled, hc])
      dsimp only at heq
      rw [heq]
      dsimp only
      obtain ⟨pu, em, heq2⟩ := ih
        ⟨st.c + 1 + innerPolls cfg env b, pu1,
         st.summaries ++ [folderSummaryOf cfg env b], em1,
         st.archive_calls ++ archCallsOf cfg env b⟩
      refine ⟨pu, em, ?_⟩
      rw [heq2]
      simp

theorem runBatches_cancelAt (cfg : Config) (env : Env) (twu tc : Nat) :
    ∀ (bs : List FolderBatch) (k : Nat) (st : LoopState),
      k < bs.length →
      env.cancelT = some (st.c + pollsUpto cfg env (bs.take k)) →
      ∃ pu, (runBatches cfg env twu tc bs st).summary =
        build_run_summary (st.summaries ++ (bs.take k).map (folderSummaryOf cfg env))
          twu pu tc true := by
  intro bs
  induction bs with
  | nil => intro k st hk; exact absurd hk (by simp)
  | cons b rest ih =>
      intro k st hk hcancel
      cases k with
      | zero =>
          have hp : polled env.cancelT st.c = true := by
            simp [polled, hcancel, pollsUpto]
          rw [runBatches, if_pos hp]
          exact ⟨st.processed_units, by simp⟩
      | succ k =>
          have hpolls : pollsUpto cfg env ((b :: rest).take (k + 1)) =
              1 + innerPolls cfg env b + pollsUpto cfg env (rest.take k) := by
            simp [pollsUpto, folderPolls, Nat.add_assoc]
          have hp : polled env.cancelT st.c = false := by
            simp only [polled, hcancel]
            simp only [decide_eq_false_iff_not]
            omega
          rw [runBatches, if_neg (by simp [hp])]
          obtain ⟨pu1, em1, heq⟩ := processFolder_noCancel cfg env twu b
            { st with c := st.c + 1 }
            (by
              intro j hj
              simp only [polled, hcancel]
              simp only [decide_eq_false_iff_not]
              rw [hpolls]
              omega)
          dsimp only at heq
          rw [heq]
          dsimp only
          obtain ⟨pu, heq2⟩ := ih k
            ⟨st.c + 1 + innerPolls cfg env b, pu1,
             st.summaries ++ [folderSummaryOf cfg env b], em1,
             st.archive_calls ++ archCallsOf cfg env b⟩
            (by simpa using Nat.lt_of_succ_lt_succ hk)
            (by
              dsimp only
              rw [hcancel, hpolls]
              congr 1
              omega)
          refine ⟨pu, ?_⟩
          rw [heq2]
          simp

theorem runBatches_shape (cfg : Config) (env : Env) (twu tc : Nat) :
    ∀ (bs : List FolderBatch) (st : LoopState),
      ∃ L pu c, (runBatches cfg env twu tc bs st).summary =
        build_run_summary L twu pu tc c := by
  intro bs
  induction bs with
  | nil =>
      intro st
      exact ⟨st.summaries, st.processed_units, false, by simp [runBatches]⟩
  | cons b rest ih =>
      intro st
      by_cases hp : polled env.cancelT st.c
      · rw [runBatches, if_pos hp]
        exact ⟨st.summaries, st.processed_units, true, rfl⟩
      · rw [runBatches, if_neg hp]
        cases hpf : processFolder cfg env twu b { st with c := st.c + 1 } with
        | cancelled st1 => exact ⟨st1.summaries, st1.processed_units, true, rfl⟩
        | done st1 => exact ih st1

theorem runBatches_replace (cfg : Config) (env : Env) (twu tc : Nat)
    (hrep : cfg.replace_originals = true) :
    ∀ (bs : List FolderBatch) (st : LoopState),
      (∀ f ∈ st.summaries, f.archive_path = none ∧ f.archive_size = none) →
      st.archive_calls = [] →
      (runBatches cfg env twu tc bs st).archive_calls = [] ∧
      ∀ f ∈ (runBatches cfg env twu tc bs st).summary.folders,
        f.archive_path = none ∧ f.archive_size = none := by
  intro bs
  induction bs with
  | nil =>
      intro st hs hc
      rw [runBatches]
      exact ⟨hc, by simpa [build_run_summary] using hs⟩
  | cons b rest ih =>
      intro st hs hc
      by_cases hp : polled env.cancelT st.c
      · rw [runBatches, if_pos hp]
        exact ⟨hc, by simpa [build_run_summary] using hs⟩
      · rw [runBatches, if_neg hp]
        have hstep := processFolder_replace cfg env twu b { st with c := st.c + 1 }
          hrep hs
        cases hpf : processFolder cfg env twu b { st with c := st.c + 1 } with
        | cancelled st1 =>
            rw [hpf] at hstep
            simp only [FolderStep_state_cancelled] at hstep
            dsimp only
            refine ⟨hstep.2.trans hc, ?_⟩
            simpa [build_run_summary] using hstep.1
        | done st1 =>
            rw [hpf] at hstep
            simp only [FolderStep_state_done] at hstep
            exact ih st1 hstep.1 (hstep.2.trans hc)

/-! ## Whole-run lemmas -/

theorem run_noCancel (cfg : Config) (env : Env) (hc : env.cancelT = none)
    (henc : env.encoder_available = true)
    (htc : (prepare_batches cfg env).2.1 ≠ 0) :
    ∃ pu em, run cfg env =
      { progressEmits := em,
        summary := build_run_summary
          ((prepare_batches cfg env).1.map (folderSummaryOf cfg env))
          (total_work_units_of (prepare_batches cfg env).2.1 (prepare_batches cfg env).2.2)
          pu (prepare_batches cfg env).2.1 false,
        archive_calls :=
          ((prepare_batches cfg env).1.map (archCallsOf cfg env)).flatten } := by
  obtain ⟨pu, em, heq⟩ := runBatches_noCancel cfg env
    (total_work_units_of (prepare_batches cfg env).2.1 (prepare_batches cfg env).2.2)
    (prepare_batches cfg env).2.1 hc (prepare_batches cfg env).1 ⟨0, 0, [], [], []⟩
  refine ⟨pu, em, ?_⟩
  rw [run]
  rw [if_neg (by simp [henc])]
  simp only []
  rw [if_neg htc]
  simpa using heq

theorem run_cancelAt (cfg : Config) (env : Env) (k : Nat)
    (henc : env.encoder_available = true)
    (htc : (prepare_batches cfg env).2.1 ≠ 0)
    (hk : k < (prepare_batches cfg env).1.length)
    (hcancel : env.cancelT =
      some (pollsUpto cfg env ((prepare_batches cfg env).1.take k))) :
    ∃ pu, (run cfg env).summary =
      build_run_summary
        (((prepare_batches cfg env).1.take k).map (folderSummaryOf cfg env))
        (total_work_units_of (prepare_batches cfg env).2.1 (prepare_batches cfg env).2.2)
        pu (prepare_batches cfg env).2.1 true := by
  obtain ⟨pu, heq⟩ := runBatches_cancelAt cfg env
    (total_work_units_of (prepare_batches cfg env).2.1 (prepare_batches cfg env).2.2)
    (prepare_batches cfg env).2.1 (prepare_batches cfg env).1 k ⟨0, 0, [], [], []⟩
    hk (by simpa using hcancel)
  refine ⟨pu, ?_⟩
  rw [run]
  rw [if_neg (by simp [henc])]
  simp only []
  rw [if_neg htc]
  simpa using heq

theorem run_summary_shape (cfg : Config) (env : Env) :
    ∃ L twu pu tc c, (run cfg env).summary = build_run_summary L twu pu tc c := by
  rw [run]
  by_cases henc : env.encoder_available
  · rw [if_neg (by simp [henc])]
    simp only []
    by_cases htc : (prepare_batches cfg env).2.1 = 0
    · rw [if_pos htc]
      exact ⟨[], _, 0, _, false, rfl⟩
    · rw [if_neg htc]
      obtain ⟨L, pu, c, heq⟩ := runBatches_shape cfg env
        (total_work_units_of (prepare_batches cfg env).2.1 (prepare_batches cfg env).2.2)
        (prepare_batches cfg env).2.1 (prepare_batches cfg env).1 ⟨0, 0, [], [], []⟩
      exact ⟨L, _, pu, _, c, heq⟩
  · rw [if_pos (by simp [Bool.not_eq_true] at henc; simp [henc])]
    exact ⟨[], 0, 0, 0, false, rfl⟩

/-- All-success image folds: if every conversion in the list succeeds,
the fold converts them all and records no errors. -/
theorem foldImages_allSuccess (cfg : Config) (env : Env) (outdir : FPath) :
    ∀ (srcs : List FPath) (acc : FolderAcc),
      (∀ src ∈ srcs, (convert_image cfg env src outdir).success = true) →
      (foldImages cfg env outdir srcs acc).converted = acc.converted + srcs.length ∧
      (foldImages cfg env outdir srcs acc).errors = acc.errors := by
  intro srcs
  induction srcs with
  | nil => intro acc _; simp [foldImages]
  | cons src rest ih =>
      intro acc h
      have hs : (convert_image cfg env src outdir).success = true :=
        h src (List.mem_cons_self _ _)
      have hrest := ih (stepAcc (convert_image cfg env src outdir) acc)
        (fun s hs2 => h s (List.mem_cons_of_mem _ hs2))
      rw [foldImages]
      refine ⟨?_, ?_⟩
      · rw [hrest.1]
        simp [stepAcc, hs]
        omega
      · rw [hrest.2]
        simp [stepAcc, hs]

/-- Everything `_create_archive` ever removes from disk is the
pre-existing archive file, the temporary output directory itself, or a
file inside that directory. -/
theorem create_archive_deleted_sub (use_cbz skip_webp : Bool) (b : FolderBatch)
    (outdir : FPath) (aenv : ArchiveEnv) :
    ∀ x ∈ (create_archive use_cbz skip_webp b outdir aenv).deleted,
      x = b.folder.dropLast ++
          [pathName b.folder ++ (if use_cbz then ".cbz" else ".zip")] ∨
      x = outdir ∨ ∃ n, x = outdir ++ [n] := by
  intro x hx
  obtain ⟨ae, ue, ofiles, ze, pe, se, ss⟩ := aenv
  cases ae <;> cases ue <;> cases ze <;> cases pe <;> cases se <;>
    simp [create_archive, List.mem_cons, List.mem_map] at hx <;>
    aesop

/-- `_create_archive`, invoked as the run invokes it, never deletes a
source image of the batch. -/
theorem create_archive_no_source_delete (use_cbz skip_webp : Bool) (b : FolderBatch)
    (aenv : ArchiveEnv) (src : FPath)
    (hfold : b.folder ≠ [])
    (hform : ∀ p ∈ b.all_images, ∃ n, p = b.folder ++ [n] ∧
        SUPPORTED_EXTENSIONS.contains (suffixLower n) = true)
    (hsrc : src ∈ b.all_images) :
    src ∉ (create_archive use_cbz skip_webp b (b.folder ++ [OUTPUT_DIR_NAME]) aenv).deleted := by
  obtain ⟨n, rfl, hn⟩ := hform src hsrc
  intro hx
  have hlen : 1 ≤ b.folder.length := List.length_pos.mpr hfold
  rcases create_archive_deleted_sub use_cbz skip_webp b
      (b.folder ++ [OUTPUT_DIR_NAME]) aenv _ hx with h | h | ⟨m, h⟩
  · have := congrArg List.length h
    simp [List.length_dropLast] at this
    omega
  · have hn2 : n = OUTPUT_DIR_NAME := by simpa using h
    subst hn2
    exact absurd hn (by decide)
  · have := congrArg List.length h
    simp at this

/-- Per batch, the convertible images are a filtration of the eligible
images, so the total convertible count never exceeds the total file
count. -/
theorem prepare_batches_convertible_le (cfg : Config) (env : Env) :
    (prepare_batches cfg env).2.1 ≤ (prepare_batches cfg env).2.2 := by
  unfold prepare_batches
  simp only []
  apply List.sum_le_sum
  intro b hb
  simp only [List.mem_map] at hb
  obtain ⟨f, hf, rfl⟩ := hb
  simp only [scan_folder]
  exact List.length_filter_le _ _

/-- Eligible images produced by the scan are direct children of the
scanned folder whose lower-cased suffix is a supported extension. -/
theorem scan_folder_images_form (skip_webp : Bool) (entries : List (String × Bool))
    (folder : FPath) :
    ∀ p ∈ (scan_folder skip_webp entries folder).all_images,
      ∃ n, p = folder ++ [n] ∧
        SUPPORTED_EXTENSIONS.contains (suffixLower n) = true := by
  intro p hp
  simp only [scan_folder, List.mem_map, List.mem_filter] at hp
  obtain ⟨e, ⟨_, hcond⟩, rfl⟩ := hp
  exact ⟨e.1, rfl, (Bool.and_eq_true _ _ |>.mp hcond).2⟩

/-- The two renderings of `Worker._emit_progress` agree: on the
natural-number counters the run passes, the values appended by
`progress_update` are exactly what the integer-level `emit_progress`
emits. -/
theorem progress_update_agrees (p t : Nat) :
    (progress_update p t).map (fun n => (n : Int)) =
      (emit_progress (p : Int) (t : Int)).toList := by
  rcases Nat.eq_zero_or_pos t with rfl | ht
  · simp [progress_update, emit_progress]
  · have h1 : ¬ (t : Int) ≤ 0 := by exact_mod_cast not_le.mpr ht
    have h2 : ¬ t ≤ 0 := Nat.not_le.mpr ht
    have hdiv : ((p * 100 / t : Nat) : Int) = (p : Int) * 100 / (t : Int) := by
      rw [Int.ofNat_ediv]
      push_cast
      rfl
    simp [progress_update, emit_progress, h1, h2, Nat.cast_min, hdiv]

/-! ## Claims -/

/-- C1 (corrected): for a `.png` source at quality 100 the built
invocation requests lossless encoding — `-lossless` is inserted right
after the program name — but, contrary to the claim's "instead of
passing the numeric quality 100", the `-q 100` arguments remain in the
command. -/
theorem c1_png_quality100_lossless (quality : Nat) (source target : FPath)
    (hext : suffixLower (pathName source) = ".png") (hq : quality = 100) :
    build_cwebp_command quality source target =
      [ENCODER_NAME, "-lossless", "-q", toString quality, pathStr source, "-o",
       pathStr target] := by
  subst hq
  simp [build_cwebp_command, hext, List.insertIdx]

/-- C1 witness: a concrete `.png` source at quality 100. -/
theorem c1_witness :
    build_cwebp_command 100 ["img.png"] ["img.webp"] =
      [ENCODER_NAME, "-lossless", "-q", toString 100, pathStr ["img.png"], "-o",
       pathStr ["img.webp"]] :=
  c1_png_quality100_lossless 100 ["img.png"] ["img.webp"] (by decide) rfl

/-- C1 counterexample: the invocation for a `.png` source at quality
100 does request lossless mode, yet the literal argument "100" is still
passed — the claim's "instead of passing the numeric quality 100 as an
argument" is false on this input. -/
theorem c1_counterexample :
    "-lossless" ∈ build_cwebp_command 100 ["img.png"] ["img.webp"] ∧
    "100" ∈ build_cwebp_command 100 ["img.png"] ["img.webp"] := by decide

/-- C2 (confirmed): within any run the sequence of emitted progress
percentages is non-decreasing and every emitted value is at most
100. -/
theorem c2_progress_monotone_capped (cfg : Config) (env : Env) :
    (run cfg env).progressEmits.Chain' (· ≤ ·) ∧
    ∀ x ∈ (run cfg env).progressEmits, x ≤ 100 := by
  rw [run]
  by_cases henc : env.encoder_available
  · rw [if_neg (by simp [henc])]
    simp only []
    by_cases htc : (prepare_batches cfg env).2.1 = 0
    · rw [if_pos htc]
      exact ⟨List.chain'_nil, by simp⟩
    · rw [if_neg htc]
      exact runBatches_emits cfg env _ _ _ _ ⟨List.chain'_nil, by simp⟩
  · rw [if_pos (by simp [Bool.not_eq_true] at henc; simp [henc])]
    exact ⟨List.chain'_nil, by simp⟩

/-- C4 (confirmed): when the encoder is not discoverable the run emits
one summary with cancelled = false, zero totals and counts, an empty
folders list, and performs no folder work: no progress is emitted and
the archive builder is never invoked. -/
theorem c4_encoder_missing_empty_summary (cfg : Config) (env : Env)
    (h : env.encoder_available = false) :
    (run cfg env).summary.cancelled = false ∧
    (run cfg env).summary.totals.converted = 0 ∧
    (run cfg env).summary.processed_images = 0 ∧
    (run cfg env).summary.total_images = 0 ∧
    (run cfg env).summary.folders = [] ∧
    (run cfg env).progressEmits = [] ∧
    (run cfg env).archive_calls = [] := by
  rw [run, if_pos (by simp [h])]
  exact ⟨rfl, rfl, rfl, rfl, rfl, rfl, rfl⟩

/-- C4 witness: a concrete run with the encoder absent. -/
theorem c4_witness :
    (run twoFolderCfg noEncoderEnv).summary.cancelled = false ∧
    (run twoFolderCfg noEncoderEnv).summary.totals.converted = 0 ∧
    (run twoFolderCfg noEncoderEnv).summary.processed_images = 0 ∧
    (run twoFolderCfg noEncoderEnv).summary.total_images = 0 ∧
    (run twoFolderCfg noEncoderEnv).summary.folders = [] ∧
    (run twoFolderCfg noEncoderEnv).progressEmits = [] ∧
    (run twoFolderCfg noEncoderEnv).archive_calls = [] :=
  c4_encoder_missing_empty_summary twoFolderCfg noEncoderEnv rfl

/-- C5 (confirmed): in every emitted summary the run-level
`totals.bytes_saved` equals `max 0 (bytes_original − bytes_converted)`
and is never negative; the per-folder saved-bytes value (derived by the
presentation layer from the folder summary, since `FolderSummary`
itself carries no bytes_saved field) is the same clamped difference and
never negative. -/
theorem c5_bytes_saved_clamped (cfg : Config) (env : Env) :
    (run cfg env).summary.totals.bytes_saved =
      max 0 ((run cfg env).summary.totals.bytes_original -
             (run cfg env).summary.totals.bytes_converted) ∧
    0 ≤ (run cfg env).summary.totals.bytes_saved ∧
    ∀ f ∈ (run cfg env).summary.folders,
      dialog_saved_value f = max 0 (f.bytes_original - f.bytes_converted) ∧
      0 ≤ dialog_saved_value f := by
  obtain ⟨L, twu, pu, tc, c, heq⟩ := run_summary_shape cfg env
  rw [heq]
  exact ⟨rfl, le_max_left _ _, fun f _ => ⟨rfl, le_max_left _ _⟩⟩

/-- C8 (confirmed): the progress reporter is a pure function of
(processed, total): it emits nothing when total ≤ 0, and for positive
total and non-negative processed it emits one integer percentage in
[0, 100] — in particular never above 100, even when processed exceeds
total. -/
theorem c8_progress_reporter_bounds :
    (∀ processed total : Int, total ≤ 0 → emit_progress processed total = none) ∧
    (∀ processed total : Int, 0 < total → 0 ≤ processed →
      ∃ v, emit_progress processed total = some v ∧ 0 ≤ v ∧ v ≤ 100) := by
  constructor
  · intro p t ht
    simp [emit_progress, ht]
  · intro p t ht hp
    refine ⟨min 100 (p * 100 / t), ?_, ?_, min_le_left _ _⟩
    · simp [emit_progress, not_le.mpr ht]
    · exact le_min (by norm_num)
        (Int.ediv_nonneg (mul_nonneg hp (by norm_num)) (le_of_lt ht))

/-- C9 (confirmed): the total work units computed after scanning equal
the total-file count when that count is positive and the total
convertible count otherwise; and since each batch's convertible images
are a filtration of its eligible images, the fallback branch can only
yield zero. -/
theorem c9_total_work_units_fallback (cfg : Config) (env : Env) :
    total_work_units_of (prepare_batches cfg env).2.1 (prepare_batches cfg env).2.2 =
      (if 0 < (prepare_batches cfg env).2.2 then (prepare_batches cfg env).2.2
       else (prepare_batches cfg env).2.1) ∧
    (prepare_batches cfg env).2.1 ≤ (prepare_batches cfg env).2.2 ∧
    ((prepare_batches cfg env).2.2 = 0 →
      total_work_units_of (prepare_batches cfg env).2.1
        (prepare_batches cfg env).2.2 = 0) := by
  refine ⟨rfl, prepare_batches_convertible_le cfg env, ?_⟩
  intro h0
  have hle := prepare_batches_convertible_le cfg env
  rw [h0] at hle
  rw [h0]
  simp [total_work_units_of]
  omega

/-- C9 witness: a folder with no eligible files at all, where the
total-file count is zero and the fallback yields zero work units. -/
theorem c9_witness :
    (prepare_batches emptyCfg baseEnv).2.2 = 0 ∧
    total_work_units_of (prepare_batches emptyCfg baseEnv).2.1
      (prepare_batches emptyCfg baseEnv).2.2 = 0 :=
  ⟨by decide, (c9_total_work_units_fallback emptyCfg baseEnv).2.2 (by decide)⟩

/-- C3 (confirmed): when the cancellation flag is first observed by the
batch-top interruption poll of folder k+1 (0-based k; the hypothesis
pins the threshold to exactly the polls consumed by folders 1..k, i.e.
the request lands after folder k completes and before folder k+1
begins), the emitted summary has cancelled = true and its folders list
is exactly the completed summaries of folders 1..k — no partial entry
for folder k+1.  The hypotheses restrict to runs that reach the folder
loop (encoder present, a nonzero convertible count), since otherwise no
folder ever begins processing. -/
theorem c3_cancel_before_folder (cfg : Config) (env : Env) (k : Nat)
    (henc : env.encoder_available = true)
    (htc : (prepare_batches cfg env).2.1 ≠ 0)
    (hk : k < (prepare_batches cfg env).1.length)
    (hcancel : env.cancelT =
      some (pollsUpto cfg env ((prepare_batches cfg env).1.take k))) :
    (run cfg env).summary.cancelled = true ∧
    (run cfg env).summary.folders =
      ((prepare_batches cfg env).1.take k).map (folderSummaryOf cfg env) := by
  obtain ⟨pu, heq⟩ := run_cancelAt cfg env k henc htc hk hcancel
  rw [heq]
  exact ⟨rfl, rfl⟩

/-- C3 witness: two one-image folders, cancellation first observed at
the top of the second folder (poll index 2). -/
theorem c3_witness :
    (run cancelCfg cancelEnv).summary.cancelled = true ∧
    (run cancelCfg cancelEnv).summary.folders =
      ((prepare_batches cancelCfg cancelEnv).1.take 1).map
        (folderSummaryOf cancelCfg cancelEnv) :=
  c3_cancel_before_folder cancelCfg cancelEnv 1 rfl (by decide) (by decide) (by decide)

/-- C6 (corrected): for a folder whose temporary output directory is
prepared successfully and which is not short-circuited by the
nothing-to-convert shortcut (at least one convertible image, or
replace-mode on), an uncancelled run with all-successful encoder
invocations and an error-free output strategy seals converted = N and
errors = [].  The frozen claim also asserted errors = [] for N = 0 with
replace-mode off; there the code instead records the informational skip
message (see the counterexample and C10). -/
theorem c6_all_success_converted (cfg : Config) (env : Env) (k : Nat) (b : FolderBatch)
    (hc : env.cancelT = none)
    (henc : env.encoder_available = true)
    (htc : (prepare_batches cfg env).2.1 ≠ 0)
    (hb : (prepare_batches cfg env).1[k]? = some b)
    (hprep : env.prep_error b.folder = none)
    (hne : (b.convertible_images.isEmpty && !cfg.replace_originals) = false)
    (hsucc : ∀ src ∈ b.convertible_images,
      (convert_image cfg env src (b.folder ++ [OUTPUT_DIR_NAME])).success = true)
    (hstrat : (strategyOf cfg env b (b.folder ++ [OUTPUT_DIR_NAME])).errors = []) :
    ∃ s, (run cfg env).summary.folders[k]? = some s ∧
      s.converted = b.convertible_images.length ∧ s.errors = [] := by
  obtain ⟨pu, em, heq⟩ := run_noCancel cfg env hc henc htc
  rw [heq]
  have hfold := foldImages_allSuccess cfg env (b.folder ++ [OUTPUT_DIR_NAME])
    b.convertible_images ⟨[], 0, 0, 0⟩ hsucc
  refine ⟨folderSummaryOf cfg env b, ?_, ?_, ?_⟩
  · simp [build_run_summary, hb]
  · unfold folderSummaryOf
    rw [hprep]
    dsimp only
    rw [if_neg (by simp [hne])]
    dsimp only [sealSummary]
    rw [hfold.1]
    simp
  · unfold folderSummaryOf
    rw [hprep]
    dsimp only
    rw [if_neg (by simp [hne])]
    dsimp only [sealSummary]
    rw [hfold.2]
    simp [hstrat]

/-- C6 witness: folder f1 of the two-folder environment, one
convertible image, everything succeeding. -/
theorem c6_witness :
    ((run twoFolderCfg twoFolderEnv).summary.folders[0]?).map
      (fun s => (s.converted, s.errors)) = some (1, []) := by
  obtain ⟨s, h1, h2, h3⟩ := c6_all_success_converted twoFolderCfg twoFolderEnv 0
    f1Batch rfl rfl (by decide) (by decide) (by decide) (by decide) (by decide)
    (by decide)
  rw [h1]
  simp [h2, h3]
  decide

/-- C6 counterexample: folder f2 of the same run has no convertible
images (so every encoder invocation vacuously succeeded and the output
strategy was never consulted), replace-mode is off, yet its sealed
summary has errors = [the informational skip message] rather than
[]. -/
theorem c6_counterexample :
    ((prepare_batches twoFolderCfg twoFolderEnv).1[1]?).map
      (fun b => b.convertible_images) = some [] ∧
    twoFolderCfg.replace_originals = false ∧
    ((run twoFolderCfg twoFolderEnv).summary.folders[1]?).map
      (fun s => (s.converted, s.errors)) =
      some (0, ["No images to convert in f2, skipping."]) := by decide

/-- C7 (confirmed): with replace-originals enabled no folder summary of
the emitted run carries an archive path or size and the archive builder
is never invoked; and the archive builder, invoked as the run invokes
it on a scanned batch, never deletes a source image of that batch (it
removes only a pre-existing archive and the temporary output
directory). -/
theorem c7_replace_no_archive :
    (∀ (cfg : Config) (env : Env), cfg.replace_originals = true →
      (run cfg env).archive_calls = [] ∧
      ∀ f ∈ (run cfg env).summary.folders,
        f.archive_path = none ∧ f.archive_size = none) ∧
    (∀ (cfg : Config) (env : Env) (b : FolderBatch) (src : FPath),
      b ∈ (prepare_batches cfg env).1 → b.folder ≠ [] → src ∈ b.all_images →
      src ∉ (create_archive cfg.use_cbz cfg.skip_webp b
        (b.folder ++ [OUTPUT_DIR_NAME]) (env.archive b.folder)).deleted) := by
  constructor
  · intro cfg env hrep
    rw [run]
    by_cases henc : env.encoder_available
    · rw [if_neg (by simp [henc])]
      simp only []
      by_cases htc : (prepare_batches cfg env).2.1 = 0
      · rw [if_pos htc]
        exact ⟨rfl, by simp [build_run_summary]⟩
      · rw [if_neg htc]
        exact runBatches_replace cfg env _ _ hrep _ ⟨0, 0, [], [], []⟩ (by simp) rfl
    · rw [if_pos (by simp [Bool.not_eq_true] at henc; simp [henc])]
      exact ⟨rfl, by simp [build_run_summary]⟩
  · intro cfg env b src hbmem hfold hsrc
    have hform : ∀ p ∈ b.all_images, ∃ n, p = b.folder ++ [n] ∧
        SUPPORTED_EXTENSIONS.contains (suffixLower n) = true := by
      simp only [prepare_batches, List.mem_map] at hbmem
      obtain ⟨f, _, rfl⟩ := hbmem
      exact scan_folder_images_form cfg.skip_webp (env.folder_entries f) f
    exact create_archive_no_source_delete cfg.use_cbz cfg.skip_webp b
      (env.archive b.folder) src hfold hform hsrc

/-- C10 (confirmed): a processed folder with no convertible images and
replace-mode off gets the informational skip message recorded in its
errors list, which therefore also counts toward the run-level
totals.errors although no failure occurred (uncancelled run reaching
the folder loop). -/
theorem c10_skip_note_in_errors (cfg : Config) (env : Env) (k : Nat) (b : FolderBatch)
    (hc : env.cancelT = none)
    (henc : env.encoder_available = true)
    (htc : (prepare_batches cfg env).2.1 ≠ 0)
    (hb : (prepare_batches cfg env).1[k]? = some b)
    (hconv : b.convertible_images = [])
    (hrep : cfg.replace_originals = false)
    (hprep : env.prep_error b.folder = none) :
    ∃ s, (run cfg env).summary.folders[k]? = some s ∧
      s.errors = ["No images to convert in " ++ pathName b.folder ++ ", skipping."] ∧
      1 ≤ (run cfg env).summary.totals.errors := by
  obtain ⟨pu, em, heq⟩ := run_noCancel cfg env hc henc htc
  have hfb : folderSummaryOf cfg env b =
      sealSummary b
        ⟨["No images to convert in " ++ pathName b.folder ++ ", skipping."], 0, 0, 0⟩
        none none := by
    unfold folderSummaryOf
    rw [hprep]
    dsimp only
    rw [if_pos (by simp [hconv, hrep])]
  rw [heq]
  refine ⟨folderSummaryOf cfg env b, ?_, ?_, ?_⟩
  · simp [build_run_summary, hb]
  · rw [hfb]
    rfl
  · have hbmem : b ∈ (prepare_batches cfg env).1 := by
      obtain ⟨hlt, rfl⟩ := List.getElem?_eq_some.mp hb
      exact List.getElem_mem _
    have hmem2 : (folderSummaryOf cfg env b).errors.length ∈
        (((prepare_batches cfg env).1.map (folderSummaryOf cfg env)).map
          (fun s => s.errors.length)) := by
      exact List.mem_map_of_mem _ (List.mem_map_of_mem _ hbmem)
    have hone : (folderSummaryOf cfg env b).errors.length = 1 := by
      rw [hfb]
      rfl
    have hsum := List.single_le_sum (fun x _ => Nat.zero_le x) _ hmem2
    rw [hone] at hsum
    simpa [build_run_summary] using hsum

/-- C10 witness: folder f2 of the two-folder run records exactly the
skip message and the run totals count one error. -/
theorem c10_witness :
    (run twoFolderCfg twoFolderEnv).summary.folders[1]? ≠ none ∧
    1 ≤ (run twoFolderCfg twoFolderEnv).summary.totals.errors := by
  obtain ⟨s, h1, h2, h3⟩ := c10_skip_note_in_errors twoFolderCfg twoFolderEnv 1
    f2Batch rfl rfl (by decide) (by decide) rfl rfl rfl
  exact ⟨by rw [h1]; simp, h3⟩

end ImageOptimizer
